import Mathlib

/-!
Verification of the canvas document store and search/replace patch engine.

This development is a shallow embedding of the TypeScript sources
`canvas-implementation/searchReplace.ts` and
`canvas-implementation/canvasStore.ts`.  JavaScript strings are modelled as
`List Char`, JavaScript numbers that hold integral values (timestamps,
versions, indices, sizes) as `Int` or `Nat`, and the floating-point
similarity scores as exact rationals (`ℚ`); the two threshold comparisons
`> 0.7` and `>= 0.8` are decided exactly, which agrees with the IEEE-double
comparison at every input whose bigram-set / length denominators are of
realistic size.  `Map` objects are modelled as insertion-ordered association
lists.  `String.prototype.replace` is embedded with its `$` substitution
patterns (ECMA-262 GetSubstitution).  Randomly generated `nanoid`
identifiers and `Date.now()` readings are passed in as explicit
parameters.
-/

/-- JavaScript strings, modelled as lists of characters. -/
abbrev Str := List Char

/- ===================================================================
   Part 1: searchReplace.ts — the patch engine (pure functions)
   =================================================================== -/

/-- `content.replace(/\r\n/g, '\n')`: one left-to-right pass replacing each
non-overlapping CRLF pair by LF. -/
def normalizeEOL : Str → Str
  | [] => []
  | '\r' :: '\n' :: rest => '\n' :: normalizeEOL rest
  | c :: rest => c :: normalizeEOL rest

/-- `l.includes(s)`: substring containment, true for the empty search. -/
def strIncludes (l s : Str) : Bool :=
  if s.isPrefixOf l then true
  else
    match l with
    | [] => false
    | _ :: rest => strIncludes rest s

/-- Scanner for `countOccurrences`: walk the text left to right; after a
match, skip the remaining `s.length - 1` matched characters (`skip` counts
characters still to be skipped) so occurrences are counted without overlap,
exactly like `text.split(search).length - 1` in the source. -/
def countOccAux (s : Str) : Nat → Str → Nat
  | _, [] => 0
  | Nat.succ k, _ :: rest => countOccAux s k rest
  | 0, c :: rest =>
    if s.isPrefixOf (c :: rest) ∧ s ≠ [] then 1 + countOccAux s (s.length - 1) rest
    else countOccAux s 0 rest

/-- `countOccurrences(text, search)` from searchReplace.ts: number of
non-overlapping occurrences, `0` for the empty search string. -/
def countOccurrences (text search : Str) : Nat :=
  if search = [] then 0 else countOccAux search 0 text

/-- `l.indexOf(s)`, the position of the leftmost occurrence of `s`; the
empty pattern matches at position 0.  `String.prototype.replace` replaces
at this position. -/
def firstIndexOf (l s : Str) : Option Nat :=
  if s.isPrefixOf l then some 0
  else
    match l with
    | [] => none
    | _ :: rest => (firstIndexOf rest s).map (fun n => n + 1)

/-- The replacement-template substitution performed by
`String.prototype.replace` (ECMA-262 GetSubstitution) for a string pattern:
`$$` yields a dollar sign, `$&` the matched text, `$` followed by a
backquote (U+0060) the text before the match, `$` followed by a quote
(U+0027) the text after the match; every other `$` (including the
`$1`-style references, which have no capture groups to refer to when the
pattern is a string) passes through literally, with scanning resuming at
the following character. -/
def getSubstitution (matched before after : Str) : Str → Str
  | [] => []
  | c :: rest =>
    if c = '$' then
      match rest with
      | [] => ['$']
      | d :: rest2 =>
        if d = '$' then '$' :: getSubstitution matched before after rest2
        else if d = '&' then matched ++ getSubstitution matched before after rest2
        else if d = '\x60' then before ++ getSubstitution matched before after rest2
        else if d = '\x27' then after ++ getSubstitution matched before after rest2
        else '$' :: getSubstitution matched before after (d :: rest2)
    else c :: getSubstitution matched before after rest

/-- `content.replace(s, r)` with a string pattern: replaces only the first
occurrence, processing the `$` substitution patterns of the replacement
template; content without an occurrence is returned unchanged. -/
def replaceFirst (content s r : Str) : Str :=
  match firstIndexOf content s with
  | none => content
  | some p =>
    content.take p ++
      getSubstitution s (content.take p) (content.drop (p + s.length)) r ++
      content.drop (p + s.length)

/-- The whitespace characters recognised by `String.prototype.trim` that can
occur in the inputs we model. -/
def isJsSpace (c : Char) : Bool :=
  c = ' ' ∨ c = '\t' ∨ c = '\n' ∨ c = '\r' ∨ c = '\x0b' ∨ c = '\x0c' ∨ c = ' '

/-- `str.trim()`. -/
def jsTrim (l : Str) : Str :=
  ((l.dropWhile isJsSpace).reverse.dropWhile isJsSpace).reverse

/-- `str.split(sep)` for a single-character separator: always yields at least
one (possibly empty) segment. -/
def splitOnChar (sep : Char) : Str → List Str
  | [] => [[]]
  | c :: rest =>
    if c = sep then [] :: splitOnChar sep rest
    else
      match splitOnChar sep rest with
      | [] => [[c]]
      | seg :: more => (c :: seg) :: more

/-- `str.split('\n')`. -/
def splitLines : Str → List Str := splitOnChar '\n'

/-- `lines.join('\n')`. -/
def joinLines (lines : List Str) : Str :=
  List.intercalate ['\n'] lines

/-- `String.prototype.toLowerCase` as used by `bigrams()` and
`detectLanguage`.  JavaScript lower-cases with the full Unicode simple case
mapping; this embedding reproduces it on the Basic Latin and Latin-1
Supplement rows and leaves higher code points unchanged (the repository's
markers, extensions and identifiers are confined to these rows). -/
def jsToLower (c : Char) : Char :=
  if 'A' ≤ c ∧ c ≤ 'Z' then Char.ofNat (c.toNat + 32)
  else if '\u00C0' ≤ c ∧ c ≤ '\u00DE' ∧ c ≠ '\u00D7' then Char.ofNat (c.toNat + 32)
  else c

/-- `bigrams(str)` from searchReplace.ts: consecutive character pairs of the
lower-cased string. -/
def bigramList : Str → List (Char × Char)
  | a :: b :: rest => (a, b) :: bigramList (b :: rest)
  | _ => []

/-- `stringSimilarity(a, b)` from searchReplace.ts: Dice coefficient on the
de-duplicated bigram sets of the lower-cased strings; `1` for equal strings,
`0` when either is empty.  When both bigram sets are empty the JS code divides
by zero and yields NaN, which fails every threshold comparison; here the
rational division yields `0`, which fails them as well. -/
def stringSimilarity (a b : Str) : ℚ :=
  if a = b then 1
  else if a = [] ∨ b = [] then 0
  else
    let A := (bigramList (a.map jsToLower)).dedup
    let B := (bigramList (b.map jsToLower)).dedup
    ((2 * (A.inter B).length : ℚ)) / ((A.length : ℚ) + (B.length : ℚ))

/-- Loop body of `findSimilarText`: scan content lines; at each line whose
trimmed form is nonempty and more than `0.7`-similar to the first search
line, propose the window of `n` lines starting there, unless that window
equals the search text verbatim. -/
def findSimilarAux (search firstLine : Str) (n : Nat) : List Str → Option Str
  | [] => none
  | line :: rest =>
    let t := jsTrim line
    if t ≠ [] ∧ (7 : ℚ) / 10 < stringSimilarity t firstLine then
      let chunk := joinLines ((line :: rest).take n)
      if chunk ≠ search then some chunk
      else findSimilarAux search firstLine n rest
    else findSimilarAux search firstLine n rest

/-- `findSimilarText(content, search)` from searchReplace.ts (the fuzzy
suggestion for `not_found` outcomes). -/
def findSimilarText (content search : Str) : Option Str :=
  let searchLines := splitLines (jsTrim search)
  let firstLine := jsTrim (searchLines.headD [])
  findSimilarAux search firstLine searchLines.length (splitLines content)

/-- `truncate(str, maxLength)` from searchReplace.ts. -/
def truncateStr (s : Str) (maxLength : Nat) : Str :=
  if s.length ≤ maxLength then s else s.take (maxLength - 3) ++ "...".toList

/-- The `error` discriminator of an `ApplyError`. -/
inductive ApplyErrorKind
  | not_found
  | multiple_matches
  | already_applied
deriving DecidableEq

/-- `ApplyError` from searchReplace.ts. -/
structure ApplyError where
  blockIndex : Nat
  search : Str
  error : ApplyErrorKind
  matchCount : Option Nat := none
  suggestion : Option Str := none
deriving DecidableEq

/-- A parsed SEARCH/REPLACE block (`SearchReplaceBlock`; the source field
`replace` is named `replaceWith` here). -/
structure SearchReplaceBlock where
  search : Str
  replaceWith : Str
  filePath : Option Str := none
deriving DecidableEq

/-- Result of `applySingleBlock`. -/
structure SingleResult where
  success : Bool
  content : Str
  error : Option ApplyError := none
deriving DecidableEq

/-- `applySingleBlock(content, search, replace, blockIndex)` from
searchReplace.ts: normalize line endings, classify `already_applied`,
`not_found` (with fuzzy suggestion), `multiple_matches` (with the count), or
perform the unique replacement. -/
def applySingleBlock (content search replaceWith : Str) (blockIndex : Nat) : SingleResult :=
  let normalizedContent := normalizeEOL content
  let normalizedSearch := normalizeEOL search
  let normalizedReplace := normalizeEOL replaceWith
  if strIncludes normalizedContent normalizedReplace ∧
      ¬ strIncludes normalizedContent normalizedSearch then
    { success := true, content := content,
      error := some { blockIndex := blockIndex, search := truncateStr search 50,
                      error := ApplyErrorKind.already_applied } }
  else
    let matchCount := countOccurrences normalizedContent normalizedSearch
    if matchCount = 0 then
      { success := false, content := content,
        error := some { blockIndex := blockIndex, search := truncateStr search 50,
                        error := ApplyErrorKind.not_found,
                        suggestion := findSimilarText normalizedContent normalizedSearch } }
    else if matchCount > 1 then
      { success := false, content := content,
        error := some { blockIndex := blockIndex, search := truncateStr search 50,
                        error := ApplyErrorKind.multiple_matches,
                        matchCount := some matchCount } }
    else
      { success := true,
        content := replaceFirst normalizedContent normalizedSearch normalizedReplace }

/-- Loop of `applySearchReplaceBlocks`: thread the running content through the
blocks in order; a successful block (including `already_applied`) updates the
content and bumps the count, a failing block records its error and leaves the
running content unchanged. -/
def applyBlocksAux (content : Str) (idx applied : Nat) (errs : List ApplyError) :
    List SearchReplaceBlock → Str × Nat × List ApplyError
  | [] => (content, applied, errs)
  | b :: rest =>
    let r := applySingleBlock content b.search b.replaceWith idx
    if r.success then applyBlocksAux r.content (idx + 1) (applied + 1) errs rest
    else applyBlocksAux content (idx + 1) applied (errs ++ r.error.toList) rest

/-- `ApplyResult` from searchReplace.ts. -/
structure ApplyResult where
  success : Bool
  newContent : Str
  appliedCount : Nat
  errors : List ApplyError
deriving DecidableEq

/-- `applySearchReplaceBlocks(content, blocks)` from searchReplace.ts. -/
def applySearchReplaceBlocks (content : Str) (blocks : List SearchReplaceBlock) : ApplyResult :=
  let r := applyBlocksAux content 0 0 [] blocks
  { success := r.2.2.isEmpty, newContent := r.1, appliedCount := r.2.1, errors := r.2.2 }

/- ===================================================================
   Part 2: canvasStore.ts — the versioned document store
   =================================================================== -/

/-- `CanvasType` from canvasStore.ts. -/
inductive CanvasType
  | code
  | markdown
  | text
  | diagram
  | html
deriving DecidableEq

/-- The writer identity `'user' | 'ai'`. -/
inductive LockActor
  | user
  | ai
deriving DecidableEq

/-- `CanvasContent` from canvasStore.ts: one revision of a canvas.  The
optional `cursorPosition` is carried along but never written by the store. -/
structure CanvasContent where
  id : Str
  version : Int
  content : Str
  language : Str
  timestamp : Int
  cursorPosition : Option (Int × Int) := none
deriving DecidableEq

/-- `Canvas` from canvasStore.ts. -/
structure Canvas where
  id : Str
  title : Str
  type : CanvasType
  currentIndex : Int
  contents : List CanvasContent
  createdAt : Int
  updatedAt : Int
  isLocked : Bool
  lockedBy : Option LockActor := none
deriving DecidableEq

/-- The store state (`CanvasState` in canvasStore.ts); `canvases` is the
`Map<string, Canvas>` modelled as an insertion-ordered association list. -/
structure CanvasState where
  canvases : List (Str × Canvas)
  activeCanvasId : Option Str
  isCanvasOpen : Bool
  panelWidth : Int
deriving DecidableEq

/-- The initial store state. -/
def initialState : CanvasState :=
  { canvases := [], activeCanvasId := none, isCanvasOpen := false, panelWidth := 50 }

/-- `Map.get` on the association-list model: the value at the first
matching key. -/
def mapGet : List (Str × Canvas) → Str → Option Canvas
  | [], _ => none
  | p :: rest, k => if p.1 = k then some p.2 else mapGet rest k

/-- `Map.set`: overwrite in place when the key is present, append otherwise. -/
def mapSet : List (Str × Canvas) → Str → Canvas → List (Str × Canvas)
  | [], k, v => [(k, v)]
  | p :: rest, k, v =>
    if p.1 = k then (k, v) :: mapSet rest k v else p :: mapSet rest k v

/-- `Map.delete`. -/
def mapDelete : List (Str × Canvas) → Str → List (Str × Canvas)
  | [], _ => []
  | p :: rest, k => if p.1 = k then mapDelete rest k else p :: mapDelete rest k

/-- JavaScript array indexing `l[i]` with a possibly negative index:
out-of-range access yields `undefined` (`none`). -/
def jsIndex {α : Type} (l : List α) (i : Int) : Option α :=
  if i < 0 then none else l.get? i.toNat

/-- Stand-in for the `undefined` produced by an out-of-range
`contents[currentIndex]` access that canvasStore.ts dereferences without a
check (the JS code would throw); no reachable store state consults it. -/
def phantomContent : CanvasContent :=
  { id := [], version := 0, content := [], language := [], timestamp := 0 }

/-- `l.set i v` guarded against the negative indices JavaScript would treat
as plain properties; reachable states only use it in range. -/
def listSetInt (l : List CanvasContent) (i : Int) (v : CanvasContent) : List CanvasContent :=
  if i < 0 then l else l.set i.toNat v

/-- `l.slice(0, e)`: a negative end counts from the end of the array. -/
def jsSliceTo {α : Type} (l : List α) (e : Int) : List α :=
  if e < 0 then l.take (l.length - (-e).toNat) else l.take e.toNat

/-- `MAX_CANVASES` (the spec's `MAX_DOCUMENTS`). -/
def MAX_CANVASES : Nat := 10

/-- `MAX_VERSIONS` (the spec's `MAX_REVISIONS`). -/
def MAX_VERSIONS : Nat := 50

/-- `DEBOUNCE_MS`. -/
def DEBOUNCE_MS : Int := 1000

/-- `ARCHIVE_AFTER_MS` (the spec's `IDLE_TIMEOUT`, 30 minutes). -/
def ARCHIVE_AFTER_MS : Int := 30 * 60 * 1000

/-- The string-to-language table `langMap` inside `detectLanguage`. -/
def langMap (ext : Str) : Option Str :=
  if ext = "ts".toList then some ("typescript".toList)
  else if ext = "tsx".toList then some ("tsx".toList)
  else if ext = "js".toList then some ("javascript".toList)
  else if ext = "jsx".toList then some ("jsx".toList)
  else if ext = "py".toList then some ("python".toList)
  else if ext = "rb".toList then some ("ruby".toList)
  else if ext = "go".toList then some ("go".toList)
  else if ext = "rs".toList then some ("rust".toList)
  else if ext = "java".toList then some ("java".toList)
  else if ext = "cpp".toList then some ("cpp".toList)
  else if ext = "c".toList then some ("c".toList)
  else if ext = "css".toList then some ("css".toList)
  else if ext = "scss".toList then some ("scss".toList)
  else if ext = "html".toList then some ("html".toList)
  else if ext = "json".toList then some ("json".toList)
  else if ext = "yaml".toList then some ("yaml".toList)
  else if ext = "yml".toList then some ("yaml".toList)
  else if ext = "md".toList then some ("markdown".toList)
  else if ext = "sql".toList then some ("sql".toList)
  else if ext = "sh".toList then some ("bash".toList)
  else if ext = "bash".toList then some ("bash".toList)
  else none

/-- The string value of a non-code `CanvasType`, as returned by
`detectLanguage` for those types. -/
def canvasTypeStr : CanvasType → Str
  | CanvasType.code => "code".toList
  | CanvasType.markdown => "markdown".toList
  | CanvasType.text => "text".toList
  | CanvasType.diagram => "diagram".toList
  | CanvasType.html => "html".toList

/-- `detectLanguage(title, type)` from canvasStore.ts. -/
def detectLanguage (title : Str) (type : CanvasType) : Str :=
  if type ≠ CanvasType.code then canvasTypeStr type
  else
    let ext := ((splitOnChar '.' title).getLastD []).map jsToLower
    (langMap ext).getD ("plaintext".toList)

/-- Loop of `archiveOldest`: find the first entry, skipping the active id,
whose `updatedAt` is strictly smaller than the best found so far. -/
def findOldestAux (activeId : Option Str) (acc : Option (Str × Canvas)) :
    List (Str × Canvas) → Option (Str × Canvas)
  | [] => acc
  | p :: rest =>
    if some p.1 = activeId then findOldestAux activeId acc rest
    else
      match acc with
      | none => findOldestAux activeId (some p) rest
      | some q =>
        if p.2.updatedAt < q.2.updatedAt then findOldestAux activeId (some p) rest
        else findOldestAux activeId acc rest

/-- `archiveOldest(canvases, activeId)` from canvasStore.ts: delete the
least-recently-updated non-active canvas provided it has been idle longer
than `ARCHIVE_AFTER_MS`; report whether anything was deleted. -/
def archiveOldest (canvases : List (Str × Canvas)) (activeId : Option Str) (now : Int) :
    Bool × List (Str × Canvas) :=
  match findOldestAux activeId none canvases with
  | some q =>
    if now - q.2.updatedAt > ARCHIVE_AFTER_MS then (true, mapDelete canvases q.1)
    else (false, canvases)
  | none => (false, canvases)

/-- `createCanvas(type, title, initialContent, language)` from canvasStore.ts.
The fresh `nanoid` values and `Date.now()` are passed in as `newCanvasId`,
`newRevId` and `now`; the returned option is the source's `string | null`. -/
def createCanvas (s : CanvasState) (type : CanvasType) (title : Str)
    (initialContent : Str) (language : Option Str)
    (newCanvasId newRevId : Str) (now : Int) : Option Str × CanvasState :=
  let detectedLanguage :=
    match language with
    | some l => if l = [] then detectLanguage title type else l
    | none => detectLanguage title type
  let canvas : Canvas :=
    { id := newCanvasId, title := title, type := type, currentIndex := 0,
      contents := [{ id := newRevId, version := 1, content := initialContent,
                     language := detectedLanguage, timestamp := now }],
      createdAt := now, updatedAt := now, isLocked := false }
  let insert := fun (cs : List (Str × Canvas)) =>
    { s with canvases := mapSet cs newCanvasId canvas
             activeCanvasId := some newCanvasId
             isCanvasOpen := true }
  if s.canvases.length ≥ MAX_CANVASES then
    match archiveOldest s.canvases s.activeCanvasId now with
    | (false, _) => (none, s)
    | (true, cs) => (some newCanvasId, insert cs)
  else (some newCanvasId, insert s.canvases)

/-- `updateCanvas(id, content)` from canvasStore.ts: merge into the open
revision inside the debounce window, otherwise truncate the redo tail,
append a new revision, and cap the history at `MAX_VERSIONS`. -/
def updateCanvas (s : CanvasState) (id : Str) (content : Str)
    (newRevId : Str) (now : Int) : CanvasState :=
  match mapGet s.canvases id with
  | none => s
  | some canvas =>
    let lastContent := (jsIndex canvas.contents canvas.currentIndex).getD phantomContent
    let timeSinceLastEdit := now - lastContent.timestamp
    let newCanvas :=
      if timeSinceLastEdit < DEBOUNCE_MS then
        { canvas with
          contents := listSetInt canvas.contents canvas.currentIndex
            { lastContent with content := content, timestamp := now }
          updatedAt := now }
      else
        let newVersion : CanvasContent :=
          { id := newRevId, version := lastContent.version + 1, content := content,
            language := lastContent.language, timestamp := now }
        let pushed := jsSliceTo canvas.contents (canvas.currentIndex + 1) ++ [newVersion]
        if pushed.length > MAX_VERSIONS then
          { canvas with
            contents := pushed.drop 1
            currentIndex := (pushed.length : Int) - 1 - 1
            updatedAt := now }
        else
          { canvas with
            contents := pushed
            currentIndex := (pushed.length : Int) - 1
            updatedAt := now }
    { s with canvases := mapSet s.canvases id newCanvas }

/-- `deleteCanvas(id)` from canvasStore.ts. -/
def deleteCanvas (s : CanvasState) (id : Str) : CanvasState :=
  let newCanvases := mapDelete s.canvases id
  let newActiveId :=
    if s.activeCanvasId = some id then newCanvases.head?.map Prod.fst
    else s.activeCanvasId
  { s with canvases := newCanvases
           activeCanvasId := newActiveId
           isCanvasOpen := decide (newActiveId ≠ none) }

/-- `renameCanvas(id, title)` from canvasStore.ts. -/
def renameCanvas (s : CanvasState) (id : Str) (title : Str) : CanvasState :=
  match mapGet s.canvases id with
  | none => s
  | some canvas =>
    { s with canvases := mapSet s.canvases id { canvas with title := title } }

/-- `undo(canvasId)` from canvasStore.ts: the state transition.  The source
function is declared `void` and has no return statement. -/
def undo (s : CanvasState) (canvasId : Str) (now : Int) : CanvasState :=
  match mapGet s.canvases canvasId with
  | none => s
  | some canvas =>
    if canvas.currentIndex ≤ 0 then s
    else
      { s with canvases := (mapSet s.canvases canvasId
          { canvas with currentIndex := canvas.currentIndex - 1, updatedAt := now }) }

/-- The value returned by the source's `undo`: its declared type is `void`
and its body has no `return`, so every call evaluates to `undefined`
(modelled as `none`), never a boolean. -/
def undoReturnValue (_s : CanvasState) (_canvasId : Str) : Option Bool := none

/-- `redo(canvasId)` from canvasStore.ts (also declared `void`). -/
def redo (s : CanvasState) (canvasId : Str) (now : Int) : CanvasState :=
  match mapGet s.canvases canvasId with
  | none => s
  | some canvas =>
    if canvas.currentIndex ≥ (canvas.contents.length : Int) - 1 then s
    else
      { s with canvases := (mapSet s.canvases canvasId
          { canvas with currentIndex := canvas.currentIndex + 1, updatedAt := now }) }

/-- `goToVersion(canvasId, index)` from canvasStore.ts. -/
def goToVersion (s : CanvasState) (canvasId : Str) (index : Int) (now : Int) : CanvasState :=
  match mapGet s.canvases canvasId with
  | none => s
  | some canvas =>
    if index < 0 ∨ index ≥ (canvas.contents.length : Int) then s
    else
      { s with canvases := (mapSet s.canvases canvasId
          { canvas with currentIndex := index, updatedAt := now }) }

/-- `acquireLock(canvasId, actor)` from canvasStore.ts: returns the granted
flag together with the resulting state. -/
def acquireLock (s : CanvasState) (canvasId : Str) (actor : LockActor) :
    Bool × CanvasState :=
  match mapGet s.canvases canvasId with
  | none => (false, s)
  | some canvas =>
    if canvas.isLocked ∧ canvas.lockedBy ≠ some actor then (false, s)
    else
      (true, { s with canvases := (mapSet s.canvases canvasId
                { canvas with isLocked := true, lockedBy := some actor }) })

/-- `releaseLock(canvasId)` from canvasStore.ts. -/
def releaseLock (s : CanvasState) (canvasId : Str) : CanvasState :=
  match mapGet s.canvases canvasId with
  | none => s
  | some canvas =>
    { s with canvases := (mapSet s.canvases canvasId
        { canvas with isLocked := false, lockedBy := none }) }

/-- `getCurrentContent(canvasId)` from canvasStore.ts: empty string for an
unknown id or an out-of-range index. -/
def getCurrentContent (s : CanvasState) (canvasId : Str) : Str :=
  match mapGet s.canvases canvasId with
  | none => []
  | some canvas =>
    ((jsIndex canvas.contents canvas.currentIndex).map (fun c => c.content)).getD []

/-- `levenshteinDistance(a, b)` from canvasStore.ts (the classic edit
distance, written recursively; the source computes it with the standard
dynamic-programming matrix). -/
def levenshteinDistance : Str → Str → Nat
  | [], b => b.length
  | a, [] => a.length
  | x :: xs, y :: ys =>
    if x = y then levenshteinDistance xs ys
    else 1 + min (levenshteinDistance xs ys) (min (levenshteinDistance xs (y :: ys)) (levenshteinDistance (x :: xs) ys))
termination_by a b => a.length + b.length

/-- `calculateSimilarity(a, b)` from canvasStore.ts: Levenshtein-based
similarity of the longer against the shorter string. -/
def calculateSimilarity (a b : Str) : ℚ :=
  let longer := if a.length > b.length then a else b
  let shorter := if a.length > b.length then b else a
  if longer.length = 0 then 1
  else ((longer.length : ℚ) - (levenshteinDistance longer shorter : ℚ)) / (longer.length : ℚ)

/-- Loop of `findFuzzyMatch`: slide a window of `n` content lines (the loop
runs while a full-height window remains, including the degenerate empty
window when `n = 0`) and return the first chunk at least `0.8`-similar to
the search text. -/
def findFuzzyAux (search : Str) (n : Nat) : List Str → Option Str
  | [] =>
    if n = 0 ∧ (8 : ℚ) / 10 ≤ calculateSimilarity (joinLines []) search then some (joinLines [])
    else none
  | line :: rest =>
    if (line :: rest).length < n then none
    else
      let chunk := joinLines ((line :: rest).take n)
      if (8 : ℚ) / 10 ≤ calculateSimilarity chunk search then some chunk
      else findFuzzyAux search n rest

/-- `findFuzzyMatch(content, search)` from canvasStore.ts (threshold 0.8). -/
def findFuzzyMatch (content search : Str) : Option Str :=
  let searchLines := splitLines (jsTrim search)
  findFuzzyAux search searchLines.length (splitLines content)

/-- `text.split(search).length - 1` as computed inline by the store's
`applySearchReplace`; for the empty search JavaScript yields
`text.length - 1` (in particular `-1` on empty text). -/
def jsSplitCount (text search : Str) : Int :=
  if search = [] then (text.length : Int) - 1
  else (countOccurrences text search : Int)

/-- The error messages produced by the store's edit operations, one
constructor per source string: `'Canvas not found'`, `'Exact match not
found'`, `'Search pattern not found in document'`, and
`'Pattern found N times. Add more context to make it unique.'`. -/
inductive StoreError
  | canvasNotFound
  | exactMatchNotFound
  | searchNotFound
  | patternFoundTimes (n : Int)
deriving DecidableEq

/-- `EditResult` from canvasStore.ts.  `suggestion` holds the fuzzy chunk
that the source wraps in the display text `Did you mean: "..."`. -/
structure EditResult where
  success : Bool
  error : Option StoreError := none
  suggestion : Option Str := none
deriving DecidableEq

/-- `applySearchReplace(canvasId, search, replace)` from canvasStore.ts:
returns the `EditResult` together with the store state after the internal
`updateCanvas` call on success. -/
def applySearchReplace (s : CanvasState) (canvasId : Str) (search replaceWith : Str)
    (newRevId : Str) (now : Int) : EditResult × CanvasState :=
  match mapGet s.canvases canvasId with
  | none => ({ success := false, error := some StoreError.canvasNotFound }, s)
  | some canvas =>
    let currentContent :=
      ((jsIndex canvas.contents canvas.currentIndex).getD phantomContent).content
    if ¬ strIncludes currentContent search then
      match findFuzzyMatch currentContent search with
      | some fm =>
        ({ success := false, error := some StoreError.exactMatchNotFound,
           suggestion := some fm }, s)
      | none => ({ success := false, error := some StoreError.searchNotFound }, s)
    else
      let matchTimes := jsSplitCount currentContent search
      if matchTimes > 1 then
        ({ success := false, error := some (StoreError.patternFoundTimes matchTimes) }, s)
      else
        let newContent := replaceFirst currentContent search replaceWith
        ({ success := true }, updateCanvas s canvasId newContent newRevId now)

/- ===================================================================
   Part 3: reachable store states and the history invariant
   =================================================================== -/

/-- The store states reachable from the initial state through the public
operations (canvas creation, content update, undo/redo, revision
navigation, deletion, and lock acquisition/release), with arbitrary
identifiers, payloads and clock readings. -/
inductive Reach : CanvasState → Prop
  | init : Reach initialState
  | create (s type title initialContent language cid rid now) (h : Reach s) :
      Reach (createCanvas s type title initialContent language cid rid now).2
  | update (s id content rid now) (h : Reach s) :
      Reach (updateCanvas s id content rid now)
  | undoStep (s id now) (h : Reach s) : Reach (undo s id now)
  | redoStep (s id now) (h : Reach s) : Reach (redo s id now)
  | goTo (s id index now) (h : Reach s) : Reach (goToVersion s id index now)
  | del (s id) (h : Reach s) : Reach (deleteCanvas s id)
  | acquire (s id actor) (h : Reach s) : Reach (acquireLock s id actor).2
  | release (s id) (h : Reach s) : Reach (releaseLock s id)

/-- The per-canvas history invariant: a non-empty revision list, an active
index within bounds, and strictly increasing version numbers. -/
def GoodCanvas (c : Canvas) : Prop :=
  c.contents ≠ [] ∧ 0 ≤ c.currentIndex ∧ c.currentIndex < (c.contents.length : Int) ∧
    List.Chain' (fun a b => a < b) (c.contents.map (fun r => r.version))

/-- Every canvas of the store satisfies the history invariant. -/
def StoreInv (s : CanvasState) : Prop :=
  ∀ p ∈ s.canvases, GoodCanvas p.2

instance : DecidablePred GoodCanvas := fun c => by
  unfold GoodCanvas; infer_instance

instance : DecidablePred StoreInv := fun s => by
  unfold StoreInv; infer_instance

/- ===================================================================
   Part 4: basic lemmas about the map model
   =================================================================== -/

theorem mapGet_mapSet_self (m : List (Str × Canvas)) (k : Str) (v : Canvas) :
    mapGet (mapSet m k v) k = some v := by
  induction m with
  | nil => simp [mapSet, mapGet]
  | cons p rest ih =>
    by_cases h : p.1 = k
    · simp [mapSet, mapGet, h, ih]
    · simp [mapSet, mapGet, h, ih]

theorem mapGet_mapSet_ne (m : List (Str × Canvas)) (k k2 : Str) (v : Canvas)
    (h : k2 ≠ k) : mapGet (mapSet m k v) k2 = mapGet m k2 := by
  have hk : k ≠ k2 := Ne.symm h
  induction m with
  | nil => simp [mapSet, mapGet, hk]
  | cons p rest ih =>
    by_cases hp : p.1 = k
    · have hp2 : p.1 ≠ k2 := by rw [hp]; exact hk
      simp [mapSet, mapGet, hp, hp2, hk, ih]
    · by_cases hp2 : p.1 = k2
      · simp [mapSet, mapGet, hp, hp2, h]
      · simp [mapSet, mapGet, hp, hp2, ih]

theorem mapGet_mapDelete_self (m : List (Str × Canvas)) (k : Str) :
    mapGet (mapDelete m k) k = none := by
  induction m with
  | nil => simp [mapDelete, mapGet]
  | cons p rest ih =>
    by_cases h : p.1 = k
    · simp [mapDelete, h, ih]
    · simp [mapDelete, mapGet, h, ih]

theorem mem_mapSet (m : List (Str × Canvas)) (k : Str) (v : Canvas) (q : Str × Canvas)
    (hq : q ∈ mapSet m k v) : q = (k, v) ∨ q ∈ m := by
  induction m with
  | nil => simp [mapSet] at hq; simp [hq]
  | cons p rest ih =>
    by_cases h : p.1 = k
    · simp only [mapSet, if_pos h, List.mem_cons] at hq
      rcases hq with hq | hq
      · exact Or.inl hq
      · rcases ih hq with hh | hh
        · exact Or.inl hh
        · exact Or.inr (List.mem_cons_of_mem _ hh)
    · simp only [mapSet, if_neg h, List.mem_cons] at hq
      rcases hq with hq | hq
      · exact Or.inr (by simp [hq])
      · rcases ih hq with hh | hh
        · exact Or.inl hh
        · exact Or.inr (List.mem_cons_of_mem _ hh)

theorem mem_mapDelete (m : List (Str × Canvas)) (k : Str) (q : Str × Canvas)
    (hq : q ∈ mapDelete m k) : q ∈ m := by
  induction m with
  | nil => simp [mapDelete] at hq
  | cons p rest ih =>
    by_cases h : p.1 = k
    · simp only [mapDelete, if_pos h] at hq
      exact List.mem_cons_of_mem _ (ih hq)
    · simp only [mapDelete, if_neg h, List.mem_cons] at hq
      rcases hq with hq | hq
      · simp [hq]
      · exact List.mem_cons_of_mem _ (ih hq)

theorem mapGet_mem (m : List (Str × Canvas)) (k : Str) (v : Canvas)
    (h : mapGet m k = some v) : (k, v) ∈ m := by
  induction m with
  | nil => simp [mapGet] at h
  | cons p rest ih =>
    by_cases hp : p.1 = k
    · simp only [mapGet, if_pos hp, Option.some.injEq] at h
      cases p with
      | mk a b =>
        simp only at hp h
        cases hp
        cases h
        exact List.mem_cons_self _ _
    · simp only [mapGet, if_neg hp] at h
      exact List.mem_cons_of_mem _ (ih h)

theorem jsIndex_some (l : List CanvasContent) (i : Int) (a : CanvasContent)
    (h : jsIndex l i = some a) :
    0 ≤ i ∧ i.toNat < l.length ∧ l.get? i.toNat = some a := by
  unfold jsIndex at h
  split at h
  · simp at h
  · rename_i hi
    push_neg at hi
    obtain ⟨hlt, _⟩ := List.get?_eq_some.mp h
    exact ⟨hi, hlt, h⟩

theorem jsIndex_of_get? (l : List CanvasContent) (i : Int) (hi : 0 ≤ i) :
    jsIndex l i = l.get? i.toNat := by
  simp [jsIndex, not_lt.mpr hi]

/-- Shape of `updateCanvas` in the debounce-merge branch. -/
theorem updateCanvas_debounce_shape (s : CanvasState) (id : Str) (c : Canvas)
    (rev : CanvasContent) (content rid : Str) (now : Int)
    (hc : mapGet s.canvases id = some c)
    (hrev : jsIndex c.contents c.currentIndex = some rev)
    (hdt : now - rev.timestamp < DEBOUNCE_MS) :
    updateCanvas s id content rid now =
      { s with canvases := (mapSet s.canvases id
          { c with
            contents := c.contents.set c.currentIndex.toNat
              { rev with content := content, timestamp := now }
            updatedAt := now }) } := by
  obtain ⟨hi, _, _⟩ := jsIndex_some _ _ _ hrev
  unfold updateCanvas
  rw [hc]
  simp only [hrev, Option.getD_some, if_pos hdt, listSetInt, if_neg (not_lt.mpr hi)]

/-- The revision appended by `updateCanvas` outside the debounce window. -/
def appendedRevision (rid content : Str) (rev : CanvasContent) (now : Int) : CanvasContent :=
  { id := rid, version := rev.version + 1, content := content,
    language := rev.language, timestamp := now }

/-- The revision list after `updateCanvas` truncates the redo tail (at the
open revision `rev = contents[currentIndex]`) and pushes the new revision,
before the `MAX_VERSIONS` cap. -/
def pushedContents (c : Canvas) (rid content : Str) (rev : CanvasContent) (now : Int) :
    List CanvasContent :=
  c.contents.take (c.currentIndex.toNat + 1) ++ [appendedRevision rid content rev now]

/-- Shape of `updateCanvas` in the append branch: the redo tail is truncated,
the new revision appended, and the history capped at `MAX_VERSIONS`. -/
theorem updateCanvas_append_shape (s : CanvasState) (id : Str) (c : Canvas)
    (rev : CanvasContent) (content rid : Str) (now : Int)
    (hc : mapGet s.canvases id = some c)
    (hrev : jsIndex c.contents c.currentIndex = some rev)
    (hdt : DEBOUNCE_MS ≤ now - rev.timestamp) :
    updateCanvas s id content rid now =
      { s with canvases := (mapSet s.canvases id
          (if (pushedContents c rid content rev now).length > MAX_VERSIONS then
             { c with
               contents := (pushedContents c rid content rev now).drop 1
               currentIndex := ((pushedContents c rid content rev now).length : Int) - 1 - 1
               updatedAt := now }
           else
             { c with
               contents := pushedContents c rid content rev now
               currentIndex := ((pushedContents c rid content rev now).length : Int) - 1
               updatedAt := now })) } := by
  obtain ⟨hi, _, _⟩ := jsIndex_some _ _ _ hrev
  have hsl : jsSliceTo c.contents (c.currentIndex + 1) =
      c.contents.take (c.currentIndex.toNat + 1) := by
    unfold jsSliceTo
    rw [if_neg (by omega)]
    congr 1
    omega
  unfold updateCanvas
  rw [hc]
  simp only [hrev, Option.getD_some, if_neg (not_lt.mpr hdt), hsl]
  rfl

/- ===================================================================
   Part 5: concrete stores used by witnesses and counterexamples
   =================================================================== -/

/-- A concrete seed revision. -/
def exRev : CanvasContent :=
  { id := "r1".toList, version := 1, content := "hello".toList,
    language := "text".toList, timestamp := 0 }

/-- A later revision of the same canvas. -/
def exRev2 : CanvasContent :=
  { id := "r2".toList, version := 2, content := "world".toList,
    language := "text".toList, timestamp := 2000 }

/-- A concrete unlocked one-revision canvas. -/
def exCanvas : Canvas :=
  { id := "d".toList, title := "t".toList, type := CanvasType.text,
    currentIndex := 0, contents := [exRev], createdAt := 0, updatedAt := 0,
    isLocked := false }

/-- A concrete canvas with two revisions, positioned on the second. -/
def exCanvas2 : Canvas :=
  { id := "d".toList, title := "t".toList, type := CanvasType.text,
    currentIndex := 1, contents := [exRev, exRev2], createdAt := 0,
    updatedAt := 2000, isLocked := false }

/-- A one-canvas store around `exCanvas`. -/
def exState : CanvasState :=
  { canvases := [("d".toList, exCanvas)], activeCanvasId := some ("d".toList),
    isCanvasOpen := true, panelWidth := 50 }

/-- A one-canvas store around `exCanvas2`. -/
def exState2 : CanvasState :=
  { canvases := [("d".toList, exCanvas2)], activeCanvasId := some ("d".toList),
    isCanvasOpen := true, panelWidth := 50 }

/- ===================================================================
   Part 6: the claims
   =================================================================== -/

/-- C8: for a document present in the store, `acquireLock` grants an unlocked
document to the requesting actor, is idempotent for the current holder
(returning true and leaving the stored canvas unchanged), denies a different
actor while locked (returning false with the state unchanged), and
`releaseLock` always leaves the document unlocked regardless of holder. -/
theorem C8_lock_semantics (s : CanvasState) (id : Str) (c : Canvas) (actor : LockActor)
    (hc : mapGet s.canvases id = some c) :
    (c.isLocked = false →
      (acquireLock s id actor).1 = true ∧
      mapGet (acquireLock s id actor).2.canvases id =
        some { c with isLocked := true, lockedBy := some actor }) ∧
    (c.isLocked = true → c.lockedBy = some actor →
      (acquireLock s id actor).1 = true ∧
      mapGet (acquireLock s id actor).2.canvases id = some c) ∧
    (c.isLocked = true → c.lockedBy ≠ some actor →
      acquireLock s id actor = (false, s)) ∧
    ((releaseLock s id).canvases = mapSet s.canvases id
        { c with isLocked := false, lockedBy := none } ∧
      mapGet (releaseLock s id).canvases id =
        some { c with isLocked := false, lockedBy := none }) := by
  refine ⟨?_, ?_, ?_, ?_⟩
  · intro hl
    simp [acquireLock, hc, hl, mapGet_mapSet_self]
  · intro hl hb
    have heq : { c with isLocked := true, lockedBy := some actor } = c := by
      cases c
      simp_all
    simp [acquireLock, hc, hl, hb, heq, mapGet_mapSet_self]
  · intro hl hb
    simp [acquireLock, hc, hl, hb]
  · constructor
    · simp [releaseLock, hc]
    · simp [releaseLock, hc, mapGet_mapSet_self]

/-- Witness for C8 at a concrete store: acquiring the lock on the unlocked
canvas `d` as `ai` is granted and recorded. -/
theorem C8_lock_semantics_witness :
    mapGet exState.canvases ("d".toList) = some exCanvas ∧
    (acquireLock exState ("d".toList) LockActor.ai).1 = true := by
  constructor
  · decide
  · exact ((C8_lock_semantics exState ("d".toList) exCanvas LockActor.ai
      (by decide)).1 (by decide)).1

/-- C10: operations addressed to an id that is not in the registry leave the
store untouched: `updateCanvas`, `undo`, `redo`, `goToVersion` and
`renameCanvas` return the state unchanged, `acquireLock` reports false,
`applySearchReplace` fails with the canvas-not-found error, and
`getCurrentContent` yields the empty string. -/
theorem C10_unknown_id (s : CanvasState) (id : Str)
    (h : mapGet s.canvases id = none)
    (content title rid se re : Str) (now now2 k : Int) (actor : LockActor) :
    updateCanvas s id content rid now = s ∧
    undo s id now2 = s ∧
    redo s id now2 = s ∧
    goToVersion s id k now2 = s ∧
    renameCanvas s id title = s ∧
    acquireLock s id actor = (false, s) ∧
    (applySearchReplace s id se re rid now).1.success = false ∧
    (applySearchReplace s id se re rid now).1.error = some StoreError.canvasNotFound ∧
    (applySearchReplace s id se re rid now).2 = s ∧
    getCurrentContent s id = [] := by
  refine ⟨?_, ?_, ?_, ?_, ?_, ?_, ?_, ?_, ?_, ?_⟩ <;>
    simp [updateCanvas, undo, redo, goToVersion, renameCanvas, acquireLock,
          applySearchReplace, getCurrentContent, h]

/-- Witness for C10: the empty initial store has no canvas `x`, and an
update addressed to it is a no-op. -/
theorem C10_unknown_id_witness :
    mapGet initialState.canvases ("x".toList) = none ∧
    updateCanvas initialState ("x".toList) [] [] 0 = initialState := by
  constructor
  · decide
  · exact (C10_unknown_id initialState ("x".toList) (by decide)
      [] [] [] [] [] 0 0 0 LockActor.ai).1

/-- C9 (code evaluated at the failing input): the store's locks carry no
acquisition time and no sweep exists; after `ai` acquires the lock on `d`
and 100000000 ms (far beyond the documented 30-second lease) pass, an
update finds the canvas still locked by `ai`.  The design document's
auto-release after 30 seconds is absent from the implementation. -/
theorem C9_lock_persists :
    (acquireLock exState ("d".toList) LockActor.ai).1 = true ∧
    ((mapGet (updateCanvas (acquireLock exState ("d".toList) LockActor.ai).2
        ("d".toList) ("bye".toList) ("r9".toList) 100000000).canvases
        ("d".toList)).map (fun c => (c.isLocked, c.lockedBy))) =
      some (true, some LockActor.ai) := by decide

/-- C7 counterexample: the claim says `undo` returns `true` when
`activeIndex > 0`, but the source `undo` is declared `void` and returns no
value at all — at a concrete store whose canvas sits at `currentIndex = 1`,
its return value is `undefined`, not `true` (nor `false`). -/
theorem C7_counterexample :
    (mapGet exState2.canvases ("d".toList)).map (fun c => decide (0 < c.currentIndex)) =
      some true ∧
    undoReturnValue exState2 ("d".toList) ≠ some true ∧
    undoReturnValue exState2 ("d".toList) ≠ some false := by decide

/-- C7 (amended): `undo` decrements `currentIndex` by one when it is
positive and is a no-op otherwise, but returns no value (`undefined`) in
either case; and after an `updateCanvas` beyond the debounce window, `undo`
restores exactly the content that was current before the update. -/
theorem C7_undo_amended (s : CanvasState) (id : Str) (c : Canvas)
    (rev : CanvasContent) (content rid : Str) (now now2 : Int)
    (hc : mapGet s.canvases id = some c)
    (hrev : jsIndex c.contents c.currentIndex = some rev) :
    (0 < c.currentIndex →
      undo s id now2 = { s with canvases := (mapSet s.canvases id
        { c with currentIndex := c.currentIndex - 1, updatedAt := now2 }) }) ∧
    (c.currentIndex ≤ 0 → undo s id now2 = s) ∧
    undoReturnValue s id = none ∧
    (DEBOUNCE_MS ≤ now - rev.timestamp →
      getCurrentContent (undo (updateCanvas s id content rid now) id now2) id =
        getCurrentContent s id) := by
  obtain ⟨hi0, hlt, hget⟩ := jsIndex_some _ _ _ hrev
  refine ⟨?_, ?_, rfl, ?_⟩
  · intro hpos
    simp [undo, hc, not_le.mpr hpos]
  · intro hle
    simp [undo, hc, hle]
  · intro hdt
    rw [updateCanvas_append_shape s id c rev content rid now hc hrev hdt]
    set i := c.currentIndex.toNat with hidef
    have htlen : (c.contents.take (i + 1)).length = i + 1 := by
      rw [List.length_take]
      omega
    have hplen : (pushedContents c rid content rev now).length = i + 2 := by
      unfold pushedContents
      rw [List.length_append, ← hidef, htlen, List.length_singleton]
    have hpget : (pushedContents c rid content rev now).get? i = some rev := by
      unfold pushedContents
      rw [← hidef, List.get?_append (by omega), List.get?_take (by omega)]
      exact hget
    have hsrc : getCurrentContent s id = rev.content := by
      simp [getCurrentContent, hc, hrev]
    split
    · rename_i hcap
      rw [hplen] at hcap
      have hges : 50 < i + 2 := by simpa [MAX_VERSIONS] using hcap
      simp only [undo, mapGet_mapSet_self, hplen]
      rw [if_neg (by omega : ¬ (((i + 2 : Nat) : Int) - 1 - 1 ≤ 0))]
      have hidx : jsIndex ((pushedContents c rid content rev now).tail)
          ((i : Int) + 2 - 1 - 1 - 1) = some rev := by
        rw [← List.drop_one, jsIndex_of_get? _ _ (by omega)]
        have h1 : ((i : Int) + 2 - 1 - 1 - 1).toNat = i - 1 := by omega
        rw [h1, List.get?_drop]
        have h2 : 1 + (i - 1) = i := by omega
        rw [h2, hpget]
      rw [hsrc]
      simp [getCurrentContent, mapGet_mapSet_self, hplen, hidx]
    · rename_i hcap
      rw [hplen] at hcap
      simp only [undo, mapGet_mapSet_self, hplen]
      rw [if_neg (by omega : ¬ (((i + 2 : Nat) : Int) - 1 ≤ 0))]
      have hidx : jsIndex (pushedContents c rid content rev now)
          ((i : Int) + 2 - 1 - 1) = some rev := by
        rw [jsIndex_of_get? _ _ (by omega)]
        have h1 : (((i : Int)) + 2 - 1 - 1).toNat = i := by omega
        rw [h1, hpget]
      rw [hsrc]
      simp [getCurrentContent, mapGet_mapSet_self, hplen, hidx]

/-- Witness for C7 (amended) at a concrete store: one update well beyond the
debounce window followed by `undo` restores the previous content. -/
theorem C7_undo_amended_witness :
    mapGet exState.canvases ("d".toList) = some exCanvas ∧
    jsIndex exCanvas.contents exCanvas.currentIndex = some exRev ∧
    getCurrentContent (undo (updateCanvas exState ("d".toList) ("x".toList)
        ("r2".toList) 2000) ("d".toList) 3000) ("d".toList) =
      getCurrentContent exState ("d".toList) := by
  refine ⟨by decide, by decide, ?_⟩
  exact (C7_undo_amended exState ("d".toList) exCanvas exRev ("x".toList)
    ("r2".toList) 2000 3000 (by decide) (by decide)).2.2.2 (by decide)

/-- C2: against the open revision `rev = contents[currentIndex]` of a stored
canvas, an update inside the debounce window rewrites `rev`'s content and
timestamp in place (same list position, same version, same `currentIndex`),
so two debounced updates leave one revision holding the second payload; an
update at or beyond the window truncates the redo tail, appends a revision
with version `rev.version + 1` (`appendedRevision`), points `currentIndex`
at the last position, and when the list exceeds `MAX_VERSIONS` drops the
oldest revision and decrements `currentIndex` by one. -/
theorem C2_updateCanvas_debounce_append (s : CanvasState) (id : Str) (c : Canvas)
    (rev : CanvasContent) (c1 c2 rid1 rid2 : Str) (now now2 : Int)
    (hc : mapGet s.canvases id = some c)
    (hrev : jsIndex c.contents c.currentIndex = some rev) :
    (now - rev.timestamp < DEBOUNCE_MS →
      mapGet (updateCanvas s id c1 rid1 now).canvases id =
        some { c with
               contents := c.contents.set c.currentIndex.toNat
                 { rev with content := c1, timestamp := now }
               updatedAt := now }) ∧
    (now - rev.timestamp < DEBOUNCE_MS → now2 - now < DEBOUNCE_MS →
      (mapGet (updateCanvas (updateCanvas s id c1 rid1 now) id c2 rid2 now2).canvases
          id).map (fun cc => (cc.contents.length, cc.currentIndex)) =
        some (c.contents.length, c.currentIndex) ∧
      getCurrentContent (updateCanvas (updateCanvas s id c1 rid1 now) id c2 rid2 now2)
          id = c2) ∧
    (DEBOUNCE_MS ≤ now - rev.timestamp →
      mapGet (updateCanvas s id c1 rid1 now).canvases id =
        some (if (pushedContents c rid1 c1 rev now).length > MAX_VERSIONS then
          { c with
            contents := (pushedContents c rid1 c1 rev now).drop 1
            currentIndex := ((pushedContents c rid1 c1 rev now).length : Int) - 1 - 1
            updatedAt := now }
        else
          { c with
            contents := pushedContents c rid1 c1 rev now
            currentIndex := ((pushedContents c rid1 c1 rev now).length : Int) - 1
            updatedAt := now })) := by
  obtain ⟨hi0, hlt, hget⟩ := jsIndex_some _ _ _ hrev
  refine ⟨?_, ?_, ?_⟩
  · intro h1
    rw [updateCanvas_debounce_shape s id c rev c1 rid1 now hc hrev h1]
    exact mapGet_mapSet_self _ _ _
  · intro h1 h2
    rw [updateCanvas_debounce_shape s id c rev c1 rid1 now hc hrev h1]
    set revA : CanvasContent := { rev with content := c1, timestamp := now } with hrevAdef
    set cA : Canvas :=
      { c with
        contents := c.contents.set c.currentIndex.toNat revA
        updatedAt := now } with hcAdef
    have hcget : mapGet ({ s with canvases := mapSet s.canvases id cA } :
        CanvasState).canvases id = some cA := mapGet_mapSet_self _ _ _
    have hlenA : cA.contents.length = c.contents.length := by
      rw [hcAdef]
      exact List.length_set c.contents _ _
    have hrevA2 : jsIndex cA.contents cA.currentIndex = some revA := by
      rw [hcAdef]
      rw [jsIndex_of_get? _ _ hi0]
      exact List.get?_set_eq_of_lt revA hlt
    have hdt2 : now2 - revA.timestamp < DEBOUNCE_MS := h2
    rw [updateCanvas_debounce_shape _ id cA revA c2 rid2 now2 hcget hrevA2 hdt2]
    constructor
    · rw [mapGet_mapSet_self]
      simp [hcAdef, List.length_set]
    · unfold getCurrentContent
      rw [mapGet_mapSet_self]
      have hidx : jsIndex (cA.contents.set cA.currentIndex.toNat
          { revA with content := c2, timestamp := now2 }) cA.currentIndex =
          some { revA with content := c2, timestamp := now2 } := by
        have hiA : 0 ≤ cA.currentIndex := by rw [hcAdef]; exact hi0
        rw [jsIndex_of_get? _ _ hiA]
        refine List.get?_set_eq_of_lt _ ?_
        rw [hlenA, hcAdef]
        exact hlt
      dsimp only
      rw [hidx]
      rfl
  · intro h3
    rw [updateCanvas_append_shape s id c rev c1 rid1 now hc hrev h3]
    exact mapGet_mapSet_self _ _ _

/-- Witness for C2: two debounced updates at a concrete store leave the
current content equal to the second payload. -/
theorem C2_updateCanvas_debounce_append_witness :
    mapGet exState.canvases ("d".toList) = some exCanvas ∧
    jsIndex exCanvas.contents exCanvas.currentIndex = some exRev ∧
    getCurrentContent (updateCanvas (updateCanvas exState ("d".toList) ("a".toList)
        ("rA".toList) 100) ("d".toList) ("b".toList) ("rB".toList) 200) ("d".toList) =
      "b".toList := by
  refine ⟨by decide, by decide, ?_⟩
  exact ((C2_updateCanvas_debounce_append exState ("d".toList) exCanvas exRev
    ("a".toList) ("b".toList) ("rA".toList) ("rB".toList) 100 200
    (by decide) (by decide)).2.1 (by decide) (by decide)).2

/-- The success flag of `applySingleBlock` does not depend on the block
index (which only labels the error record). -/
theorem applySingleBlock_success_idx (content search replaceWith : Str) (i : Nat) :
    (applySingleBlock content search replaceWith i).success =
      (applySingleBlock content search replaceWith 0).success := by
  unfold applySingleBlock
  dsimp only
  split_ifs <;> rfl

/-- The resulting content of `applySingleBlock` does not depend on the block
index. -/
theorem applySingleBlock_content_idx (content search replaceWith : Str) (i : Nat) :
    (applySingleBlock content search replaceWith i).content =
      (applySingleBlock content search replaceWith 0).content := by
  unfold applySingleBlock
  dsimp only
  split_ifs <;> rfl

/-- One step of the batch loop. -/
theorem applyBlocksAux_cons (content : Str) (i a : Nat) (e : List ApplyError)
    (b : SearchReplaceBlock) (bs : List SearchReplaceBlock) :
    applyBlocksAux content i a e (b :: bs) =
      if (applySingleBlock content b.search b.replaceWith i).success then
        applyBlocksAux (applySingleBlock content b.search b.replaceWith i).content
          (i + 1) (a + 1) e bs
      else
        applyBlocksAux content (i + 1) a
          (e ++ (applySingleBlock content b.search b.replaceWith i).error.toList) bs := rfl

/-- The running content and the number of applied blocks computed by the
batch loop do not depend on the starting block index, applied count, or
error accumulator. -/
theorem applyBlocksAux_shift (bs : List SearchReplaceBlock) :
    ∀ (content : Str) (i a : Nat) (e : List ApplyError),
      (applyBlocksAux content i a e bs).1 = (applyBlocksAux content 0 0 [] bs).1 ∧
      (applyBlocksAux content i a e bs).2.1 = a + (applyBlocksAux content 0 0 [] bs).2.1 := by
  induction bs with
  | nil => intro content i a e; exact ⟨rfl, rfl⟩
  | cons b rest ih =>
    intro content i a e
    simp only [applyBlocksAux_cons]
    rw [applySingleBlock_success_idx content b.search b.replaceWith i,
        applySingleBlock_content_idx content b.search b.replaceWith i]
    cases hs : (applySingleBlock content b.search b.replaceWith 0).success with
    | true =>
      simp only [hs, eq_self_iff_true, if_true]
      constructor
      · exact ((ih _ _ _ _).1).trans ((ih _ _ _ _).1).symm
      · have h1 := (ih ((applySingleBlock content b.search b.replaceWith 0).content)
          (i + 1) (a + 1) e).2
        have h2 := (ih ((applySingleBlock content b.search b.replaceWith 0).content)
          (0 + 1) (0 + 1) []).2
        rw [h1, h2]
        omega
    | false =>
      simp only [hs, Bool.false_eq_true, if_false]
      constructor
      · exact ((ih _ _ _ _).1).trans ((ih _ _ _ _).1).symm
      · have h1 := (ih content (i + 1) a
          (e ++ (applySingleBlock content b.search b.replaceWith i).error.toList)).2
        have h2 := (ih content (0 + 1) 0
          ([] ++ (applySingleBlock content b.search b.replaceWith 0).error.toList)).2
        rw [h1, h2]
        omega

/-- The batch loop over `bs1 ++ bs2` is the loop over `bs1` followed by the
loop over `bs2` started from the intermediate accumulator. -/
theorem applyBlocksAux_append (bs1 bs2 : List SearchReplaceBlock) :
    ∀ (content : Str) (i a : Nat) (e : List ApplyError),
      applyBlocksAux content i a e (bs1 ++ bs2) =
        applyBlocksAux (applyBlocksAux content i a e bs1).1
          (i + bs1.length) (applyBlocksAux content i a e bs1).2.1
          (applyBlocksAux content i a e bs1).2.2 bs2 := by
  induction bs1 with
  | nil =>
    intro content i a e
    simp [applyBlocksAux]
  | cons b rest ih =>
    intro content i a e
    simp only [List.cons_append, applyBlocksAux_cons]
    cases hs : (applySingleBlock content b.search b.replaceWith i).success with
    | true =>
      simp only [hs, eq_self_iff_true, if_true]
      rw [ih]
      simp only [List.length_cons]
      have h : i + 1 + rest.length = i + (rest.length + 1) := by omega
      rw [h]
    | false =>
      simp only [hs, Bool.false_eq_true, if_false]
      rw [ih]
      simp only [List.length_cons]
      have h : i + 1 + rest.length = i + (rest.length + 1) := by omega
      rw [h]

/-- C5: blocks are processed strictly in list order — the result over
`bs1 ++ bs2` is the result of running `bs2` on the content produced by
`bs1`, with applied counts adding up; and one step of the loop evaluates the
head block against the current content, threading its result on success and
leaving the running content unchanged on failure, so content produced by
earlier successful blocks is kept even when later blocks fail. -/
theorem C5_blocks_sequential (content : Str) (bs1 bs2 : List SearchReplaceBlock)
    (b : SearchReplaceBlock) :
    (applySearchReplaceBlocks content (bs1 ++ bs2)).newContent =
      (applySearchReplaceBlocks
        (applySearchReplaceBlocks content bs1).newContent bs2).newContent ∧
    (applySearchReplaceBlocks content (bs1 ++ bs2)).appliedCount =
      (applySearchReplaceBlocks content bs1).appliedCount +
      (applySearchReplaceBlocks
        (applySearchReplaceBlocks content bs1).newContent bs2).appliedCount ∧
    (applySearchReplaceBlocks content (b :: bs2)).newContent =
      (applySearchReplaceBlocks
        (if (applySingleBlock content b.search b.replaceWith 0).success then
          (applySingleBlock content b.search b.replaceWith 0).content
        else content) bs2).newContent := by
  refine ⟨?_, ?_, ?_⟩
  · show (applyBlocksAux content 0 0 [] (bs1 ++ bs2)).1 =
      (applyBlocksAux (applyBlocksAux content 0 0 [] bs1).1 0 0 [] bs2).1
    rw [applyBlocksAux_append]
    exact (applyBlocksAux_shift bs2 _ _ _ _).1
  · show (applyBlocksAux content 0 0 [] (bs1 ++ bs2)).2.1 =
      (applyBlocksAux content 0 0 [] bs1).2.1 +
        (applyBlocksAux (applyBlocksAux content 0 0 [] bs1).1 0 0 [] bs2).2.1
    rw [applyBlocksAux_append]
    exact (applyBlocksAux_shift bs2 _ _ _ _).2
  · show (applyBlocksAux content 0 0 [] (b :: bs2)).1 =
      (applyBlocksAux (if (applySingleBlock content b.search b.replaceWith 0).success then
          (applySingleBlock content b.search b.replaceWith 0).content
        else content) 0 0 [] bs2).1
    rw [applyBlocksAux_cons]
    cases hs : (applySingleBlock content b.search b.replaceWith 0).success with
    | true =>
      simp only [hs, eq_self_iff_true, if_true]
      exact (applyBlocksAux_shift bs2 _ _ _ _).1
    | false =>
      simp only [hs, Bool.false_eq_true, if_false]
      exact (applyBlocksAux_shift bs2 _ _ _ _).1

/-- C4 counterexample: with content `aab`, search `ab`, replacement `b`, the
first application succeeds as `applied` (producing `ab`), but the second
application of the very same block is `applied` again (its error is `none`,
not `already_applied`) and changes the content from `ab` to `b` — so the
claimed applied-then-already_applied behaviour with unchanged content fails
as stated. -/
theorem C4_counterexample :
    (applySingleBlock ("aab".toList) ("ab".toList) ("b".toList) 0).success = true ∧
    (applySingleBlock ("aab".toList) ("ab".toList) ("b".toList) 0).error = none ∧
    (applySingleBlock ("aab".toList) ("ab".toList) ("b".toList) 0).content = "ab".toList ∧
    (applySingleBlock ("ab".toList) ("ab".toList) ("b".toList) 0).error = none ∧
    (applySingleBlock ("ab".toList) ("ab".toList) ("b".toList) 0).content = "b".toList ∧
    ("b".toList : Str) ≠ "ab".toList := by decide

/-- C4 (amended): when the first application of a block succeeds as
`applied` and its result, after line-ending normalization, still contains
the normalized replacement and no longer contains the normalized search,
the second application of the same block is classified `already_applied`,
succeeds, and leaves the content unchanged; and `appliedCount` counts both
the `applied` and the `already_applied` run as one success each. -/
theorem C4_idempotence_amended (content search replaceWith : Str)
    (h1 : (applySingleBlock content search replaceWith 0).success = true)
    (hrep : strIncludes
        (normalizeEOL (applySingleBlock content search replaceWith 0).content)
        (normalizeEOL replaceWith) = true)
    (hsearch : strIncludes
        (normalizeEOL (applySingleBlock content search replaceWith 0).content)
        (normalizeEOL search) = false) :
    (applySingleBlock (applySingleBlock content search replaceWith 0).content
        search replaceWith 0).success = true ∧
    (∃ e, (applySingleBlock (applySingleBlock content search replaceWith 0).content
        search replaceWith 0).error = some e ∧
      e.error = ApplyErrorKind.already_applied) ∧
    (applySingleBlock (applySingleBlock content search replaceWith 0).content
        search replaceWith 0).content =
      (applySingleBlock content search replaceWith 0).content ∧
    (applySearchReplaceBlocks content
        [{ search := search, replaceWith := replaceWith }]).appliedCount = 1 ∧
    (applySearchReplaceBlocks (applySingleBlock content search replaceWith 0).content
        [{ search := search, replaceWith := replaceWith }]).appliedCount = 1 ∧
    (applySearchReplaceBlocks (applySingleBlock content search replaceWith 0).content
        [{ search := search, replaceWith := replaceWith }]).newContent =
      (applySingleBlock content search replaceWith 0).content := by
  set r1c := (applySingleBlock content search replaceWith 0).content with hr1c
  have hcond : (strIncludes (normalizeEOL r1c) (normalizeEOL replaceWith) : Prop) ∧
      ¬ (strIncludes (normalizeEOL r1c) (normalizeEOL search) : Prop) := by
    refine ⟨hrep, ?_⟩
    simp [hsearch]
  have hscc : (applySingleBlock r1c search replaceWith 0).success = true := by
    unfold applySingleBlock
    dsimp only
    rw [if_pos hcond]
  have herr : (applySingleBlock r1c search replaceWith 0).error =
      some { blockIndex := 0, search := truncateStr search 50,
             error := ApplyErrorKind.already_applied } := by
    unfold applySingleBlock
    dsimp only
    rw [if_pos hcond]
  have hcnt : (applySingleBlock r1c search replaceWith 0).content = r1c := by
    unfold applySingleBlock
    dsimp only
    rw [if_pos hcond]
  refine ⟨hscc, ⟨_, herr, rfl⟩, hcnt, ?_, ?_, ?_⟩
  · show (applyBlocksAux content 0 0 []
      [{ search := search, replaceWith := replaceWith }]).2.1 = 1
    rw [applyBlocksAux_cons]
    dsimp only
    rw [if_pos (show ((applySingleBlock content search replaceWith 0).success : Prop)
      from h1)]
    rfl
  · show (applyBlocksAux r1c 0 0 []
      [{ search := search, replaceWith := replaceWith }]).2.1 = 1
    rw [applyBlocksAux_cons]
    dsimp only
    rw [if_pos (show ((applySingleBlock r1c search replaceWith 0).success : Prop)
      from hscc)]
    rfl
  · show (applyBlocksAux r1c 0 0 []
      [{ search := search, replaceWith := replaceWith }]).1 = r1c
    rw [applyBlocksAux_cons]
    dsimp only
    rw [if_pos (show ((applySingleBlock r1c search replaceWith 0).success : Prop)
      from hscc)]
    exact hcnt

/-- Witness for C4 (amended): content `x`, search `x`, replacement `y` —
the first application yields `y`, which contains the replacement and not
the search, so the second application is `already_applied` and the batch
counts one success each time. -/
theorem C4_idempotence_amended_witness :
    (applySingleBlock ("x".toList) ("x".toList) ("y".toList) 0).success = true ∧
    (applySearchReplaceBlocks
      ((applySingleBlock ("x".toList) ("x".toList) ("y".toList) 0).content)
      [{ search := "x".toList, replaceWith := "y".toList }]).newContent =
      (applySingleBlock ("x".toList) ("x".toList) ("y".toList) 0).content := by
  constructor
  · decide
  · exact (C4_idempotence_amended ("x".toList) ("x".toList) ("y".toList)
      (by decide) (by decide) (by decide)).2.2.2.2.2

/-- Whatever the fold of `archiveOldest` returns is the accumulator or a
non-active entry of the list. -/
theorem findOldestAux_mem (activeId : Option Str) :
    ∀ (l : List (Str × Canvas)) (acc : Option (Str × Canvas)) (q : Str × Canvas),
      findOldestAux activeId acc l = some q →
      acc = some q ∨ (q ∈ l ∧ some q.1 ≠ activeId) := by
  intro l
  induction l with
  | nil =>
    intro acc q h
    exact Or.inl h
  | cons p rest ih =>
    intro acc q h
    unfold findOldestAux at h
    by_cases hact : some p.1 = activeId
    · rw [if_pos hact] at h
      rcases ih _ _ h with h1 | h1
      · exact Or.inl h1
      · exact Or.inr ⟨List.mem_cons_of_mem _ h1.1, h1.2⟩
    · rw [if_neg hact] at h
      cases acc with
      | none =>
        rcases ih _ _ h with h1 | h1
        · cases h1
          exact Or.inr ⟨List.mem_cons_self _ _, hact⟩
        · exact Or.inr ⟨List.mem_cons_of_mem _ h1.1, h1.2⟩
      | some q0 =>
        dsimp only at h
        by_cases hlt : p.2.updatedAt < q0.2.updatedAt
        · rw [if_pos hlt] at h
          rcases ih _ _ h with h1 | h1
          · cases h1
            exact Or.inr ⟨List.mem_cons_self _ _, hact⟩
          · exact Or.inr ⟨List.mem_cons_of_mem _ h1.1, h1.2⟩
        · rw [if_neg hlt] at h
          rcases ih _ _ h with h1 | h1
          · exact Or.inl h1
          · exact Or.inr ⟨List.mem_cons_of_mem _ h1.1, h1.2⟩

/-- If `d` is a non-active entry strictly older than every other non-active
entry, the fold of `archiveOldest` finds exactly `d`. -/
theorem findOldestAux_strict_min (activeId : Option Str) (d : Str × Canvas)
    (hact : some d.1 ≠ activeId) :
    ∀ (l : List (Str × Canvas)) (acc : Option (Str × Canvas)),
      (d ∈ l ∨ acc = some d) →
      (∀ p, p ∈ l → some p.1 ≠ activeId → p ≠ d → d.2.updatedAt < p.2.updatedAt) →
      (∀ q, acc = some q → q = d ∨ (some q.1 ≠ activeId ∧ d.2.updatedAt < q.2.updatedAt)) →
      findOldestAux activeId acc l = some d := by
  intro l
  induction l with
  | nil =>
    intro acc hmem hstrict hacc
    rcases hmem with h | h
    · simp at h
    · simpa [findOldestAux] using h
  | cons p rest ih =>
    intro acc hmem hstrict hacc
    unfold findOldestAux
    by_cases hactp : some p.1 = activeId
    · rw [if_pos hactp]
      refine ih acc ?_ (fun q hq h1 h2 => hstrict q (List.mem_cons_of_mem _ hq) h1 h2) hacc
      rcases hmem with h | h
      · rcases List.mem_cons.mp h with h1 | h1
        · exfalso
          rw [h1] at hact
          exact hact hactp
        · exact Or.inl h1
      · exact Or.inr h
    · rw [if_neg hactp]
      cases acc with
      | none =>
        refine ih (some p) ?_
          (fun q hq h1 h2 => hstrict q (List.mem_cons_of_mem _ hq) h1 h2) ?_
        · rcases hmem with h | h
          · rcases List.mem_cons.mp h with h1 | h1
            · exact Or.inr (by rw [h1])
            · exact Or.inl h1
          · cases h
        · intro q hq
          cases hq
          by_cases hpd : p = d
          · exact Or.inl hpd
          · exact Or.inr ⟨hactp, hstrict p (List.mem_cons_self _ _) hactp hpd⟩
      | some q0 =>
        dsimp only
        have hq0 := hacc q0 rfl
        by_cases hlt : p.2.updatedAt < q0.2.updatedAt
        · rw [if_pos hlt]
          refine ih (some p) ?_
            (fun q hq h1 h2 => hstrict q (List.mem_cons_of_mem _ hq) h1 h2) ?_
          · rcases hmem with h | h
            · rcases List.mem_cons.mp h with h1 | h1
              · exact Or.inr (by rw [h1])
              · exact Or.inl h1
            · -- acc = some d, so q0 = d; then p would be strictly older than d
              have hq0d : q0 = d := by
                injection h
              by_cases hpd : p = d
              · exact Or.inr (by rw [hpd])
              · exfalso
                have := hstrict p (List.mem_cons_self _ _) hactp hpd
                rw [hq0d] at hlt
                omega
          · intro q hq
            cases hq
            by_cases hpd : p = d
            · exact Or.inl hpd
            · exact Or.inr ⟨hactp, hstrict p (List.mem_cons_self _ _) hactp hpd⟩
        · rw [if_neg hlt]
          refine ih (some q0) ?_
            (fun q hq h1 h2 => hstrict q (List.mem_cons_of_mem _ hq) h1 h2) hacc
          rcases hmem with h | h
          · rcases List.mem_cons.mp h with h1 | h1
            · -- d is the head p, yet p is not older than q0: q0 must be d itself
              rcases hq0 with hq0 | hq0
              · exact Or.inr (by rw [hq0])
              · exfalso
                rw [← h1] at hlt
                exact hlt hq0.2
            · exact Or.inl h1
          · exact Or.inr h

/-- C6: with a full registry (`MAX_CANVASES` entries), `createCanvas` evicts
the unique strictly-oldest non-active canvas provided it has been idle
longer than `ARCHIVE_AFTER_MS`, and then succeeds with the evicted canvas
gone and the new one present; if no non-active canvas is idle beyond the
timeout, creation fails (`null`) and the registry is unchanged. -/
theorem C6_capacity (s : CanvasState) (type : CanvasType) (title initC : Str)
    (language : Option Str) (newId rid : Str) (now : Int)
    (hfull : s.canvases.length ≥ MAX_CANVASES) :
    (∀ did d, (did, d) ∈ s.canvases → some did ≠ s.activeCanvasId →
      (∀ p, p ∈ s.canvases → some p.1 ≠ s.activeCanvasId → p ≠ (did, d) →
        d.updatedAt < p.2.updatedAt) →
      now - d.updatedAt > ARCHIVE_AFTER_MS →
      newId ≠ did →
      (createCanvas s type title initC language newId rid now).1 = some newId ∧
      mapGet (createCanvas s type title initC language newId rid now).2.canvases did =
        none ∧
      (mapGet (createCanvas s type title initC language newId rid now).2.canvases
        newId).isSome = true) ∧
    ((∀ p, p ∈ s.canvases → some p.1 ≠ s.activeCanvasId →
        now - p.2.updatedAt ≤ ARCHIVE_AFTER_MS) →
      (createCanvas s type title initC language newId rid now).1 = none ∧
      (createCanvas s type title initC language newId rid now).2 = s) := by
  constructor
  · intro did d hmem hnonact hstrict hidle hfresh
    have hfound : findOldestAux s.activeCanvasId none s.canvases = some (did, d) := by
      refine findOldestAux_strict_min s.activeCanvasId (did, d) hnonact s.canvases none
        (Or.inl hmem) hstrict ?_
      intro q hq
      cases hq
    have harch : archiveOldest s.canvases s.activeCanvasId now =
        (true, mapDelete s.canvases did) := by
      unfold archiveOldest
      rw [hfound]
      dsimp only
      rw [if_pos hidle]
    unfold createCanvas
    dsimp only
    rw [if_pos hfull, harch]
    refine ⟨rfl, ?_, ?_⟩
    · dsimp only
      rw [mapGet_mapSet_ne _ _ _ _ (Ne.symm hfresh), mapGet_mapDelete_self]
    · dsimp only
      rw [mapGet_mapSet_self]
      rfl
  · intro hall
    unfold createCanvas
    dsimp only
    rw [if_pos hfull]
    cases hfind : findOldestAux s.activeCanvasId none s.canvases with
    | none =>
      have harch : archiveOldest s.canvases s.activeCanvasId now = (false, s.canvases) := by
        unfold archiveOldest
        rw [hfind]
      rw [harch]
      exact ⟨rfl, rfl⟩
    | some q =>
      rcases findOldestAux_mem s.activeCanvasId s.canvases none q hfind with h | h
      · cases h
      · have hle := hall q h.1 h.2
        have harch : archiveOldest s.canvases s.activeCanvasId now =
            (false, s.canvases) := by
          unfold archiveOldest
          rw [hfind]
          dsimp only
          rw [if_neg (by omega)]
        rw [harch]
        exact ⟨rfl, rfl⟩

/-- A full registry of ten canvases, none idle at time 0, with `c0` active. -/
def exFull : CanvasState :=
  { canvases := [("c0".toList, exCanvas), ("c1".toList, exCanvas),
      ("c2".toList, exCanvas), ("c3".toList, exCanvas), ("c4".toList, exCanvas),
      ("c5".toList, exCanvas), ("c6".toList, exCanvas), ("c7".toList, exCanvas),
      ("c8".toList, exCanvas), ("c9".toList, exCanvas)]
    activeCanvasId := some ("c0".toList)
    isCanvasOpen := true
    panelWidth := 50 }

/-- Witness for C6: at the full non-idle registry, an eleventh create at
time 0 fails and creates nothing. -/
theorem C6_capacity_witness :
    exFull.canvases.length ≥ MAX_CANVASES ∧
    (createCanvas exFull CanvasType.text ("t".toList) [] none ("new".toList)
      ("r".toList) 0).1 = none := by
  constructor
  · decide
  · exact ((C6_capacity exFull CanvasType.text ("t".toList) [] none ("new".toList)
      ("r".toList) 0 (by decide)).2 (by decide)).1

theorem list_set_id {α : Type} :
    ∀ (l : List α) (n : Nat) (a : α), l.get? n = some a → l.set n a = l := by
  intro l
  induction l with
  | nil => intro n a h; simp at h
  | cons c rest ih =>
    intro n a h
    cases n with
    | zero =>
      simp only [List.get?_cons_zero, Option.some.injEq] at h
      simp [List.set, h]
    | succ m =>
      simp only [List.get?_cons_succ] at h
      simp [List.set, ih m a h]

theorem getLast?_take_succ {α : Type} (l : List α) (n : Nat) (a : α)
    (h : l.get? n = some a) : (l.take (n + 1)).getLast? = some a := by
  rw [List.take_succ, ← List.get?_eq_getElem?, h]
  simp

theorem inv_mapSet (m : List (Str × Canvas)) (hm : ∀ p ∈ m, GoodCanvas p.2)
    (k : Str) (v : Canvas) (hv : GoodCanvas v) :
    ∀ p ∈ mapSet m k v, GoodCanvas p.2 := by
  intro p hp
  rcases mem_mapSet m k v p hp with h | h
  · rw [h]; exact hv
  · exact hm p h

theorem archiveOldest_sub (canvases : List (Str × Canvas)) (activeId : Option Str)
    (now : Int) (b : Bool) (cs : List (Str × Canvas))
    (h : archiveOldest canvases activeId now = (b, cs)) : ∀ p ∈ cs, p ∈ canvases := by
  unfold archiveOldest at h
  cases hfind : findOldestAux activeId none canvases with
  | none =>
    rw [hfind] at h
    cases h
    exact fun p hp => hp
  | some q =>
    rw [hfind] at h
    dsimp only at h
    by_cases hidle : now - q.2.updatedAt > ARCHIVE_AFTER_MS
    · rw [if_pos hidle] at h
      cases h
      exact fun p hp => mem_mapDelete _ _ _ hp
    · rw [if_neg hidle] at h
      cases h
      exact fun p hp => hp

/-- The seed canvas created by `createCanvas` satisfies the history
invariant. -/
theorem goodCanvas_seed (cid rid title lang initC : Str) (type : CanvasType) (now : Int) :
    GoodCanvas
      { id := cid, title := title, type := type, currentIndex := 0,
        contents := [{ id := rid, version := 1, content := initC,
                       language := lang, timestamp := now }],
        createdAt := now, updatedAt := now, isLocked := false } := by
  refine ⟨by simp, by simp, by simp, by simp⟩

theorem storeInv_createCanvas (s : CanvasState) (type : CanvasType)
    (title initC : Str) (language : Option Str) (cid rid : Str) (now : Int)
    (hinv : StoreInv s) :
    StoreInv (createCanvas s type title initC language cid rid now).2 := by
  unfold createCanvas
  dsimp only
  by_cases hfull : s.canvases.length ≥ MAX_CANVASES
  · rw [if_pos hfull]
    cases harch : archiveOldest s.canvases s.activeCanvasId now with
    | mk b cs =>
      cases b with
      | false => exact hinv
      | true =>
        intro p hp
        refine inv_mapSet cs ?_ _ _ (goodCanvas_seed _ _ _ _ _ _ _) p hp
        intro q hq
        exact hinv q (archiveOldest_sub _ _ _ _ _ harch q hq)
  · rw [if_neg hfull]
    intro p hp
    exact inv_mapSet s.canvases hinv _ _ (goodCanvas_seed _ _ _ _ _ _ _) p hp

theorem storeInv_updateCanvas (s : CanvasState) (id content rid : Str) (now : Int)
    (hinv : StoreInv s) : StoreInv (updateCanvas s id content rid now) := by
  cases hmg : mapGet s.canvases id with
  | none =>
    unfold updateCanvas
    rw [hmg]
    exact hinv
  | some canvas =>
    obtain ⟨hne, h0, hub, hch⟩ := hinv (id, canvas) (mapGet_mem _ _ _ hmg)
    dsimp only at hne h0 hub hch
    have hlt : canvas.currentIndex.toNat < canvas.contents.length := by omega
    obtain ⟨rev, hrevget⟩ : ∃ rev, canvas.contents.get? canvas.currentIndex.toNat = some rev :=
      ⟨canvas.contents.get ⟨_, hlt⟩, List.get?_eq_get hlt⟩
    have hrev : jsIndex canvas.contents canvas.currentIndex = some rev := by
      rw [jsIndex_of_get? _ _ h0]
      exact hrevget
    by_cases hdt : now - rev.timestamp < DEBOUNCE_MS
    · rw [updateCanvas_debounce_shape s id canvas rev content rid now hmg hrev hdt]
      intro p hp
      rcases mem_mapSet _ _ _ p hp with h | h
      · rw [h]
        refine ⟨?_, h0, ?_, ?_⟩
        · dsimp only
          apply List.ne_nil_of_length_pos
          rw [List.length_set]
          omega
        · dsimp only
          rw [List.length_set]
          exact hub
        · dsimp only
          rw [List.map_set]
          have hv : ({ rev with content := content, timestamp := now } :
              CanvasContent).version = rev.version := rfl
          rw [hv]
          rw [list_set_id _ _ _ (by rw [List.get?_map, hrevget]; rfl)]
          exact hch
      · exact hinv p h
    · rw [updateCanvas_append_shape s id canvas rev content rid now hmg hrev (by omega)]
      intro p hp
      rcases mem_mapSet _ _ _ p hp with h | h
      · rw [h]
        have htlen : (canvas.contents.take (canvas.currentIndex.toNat + 1)).length =
            canvas.currentIndex.toNat + 1 := by
          rw [List.length_take]
          omega
        have hplen : (pushedContents canvas rid content rev now).length =
            canvas.currentIndex.toNat + 2 := by
          unfold pushedContents
          rw [List.length_append, htlen, List.length_singleton]
        have hchain : List.Chain' (fun a b => a < b)
            ((pushedContents canvas rid content rev now).map (fun r => r.version)) := by
          unfold pushedContents appendedRevision
          rw [List.map_append, List.map_take]
          dsimp only [List.map_cons, List.map_nil]
          rw [List.chain'_append]
          refine ⟨List.Chain'.take hch _, List.chain'_singleton _, ?_⟩
          intro x hx y hy
          rw [getLast?_take_succ _ _ _ (by rw [List.get?_map, hrevget]; rfl)] at hx
          simp only [List.head?_cons, Option.mem_def, Option.some.injEq] at hx hy
          rw [← hx, ← hy]
          omega
        split
        · rename_i hcap
          rw [hplen] at hcap
          refine ⟨?_, ?_, ?_, ?_⟩
          · dsimp only
            apply List.ne_nil_of_length_pos
            rw [List.length_drop, hplen]
            omega
          · dsimp only
            rw [hplen]
            have hcap50 : 50 < canvas.currentIndex.toNat + 2 := by
              simpa [MAX_VERSIONS] using hcap
            omega
          · dsimp only
            rw [List.length_drop, hplen]
            push_cast
            omega
          · dsimp only
            rw [List.map_drop, List.drop_one]
            exact List.Chain'.tail hchain
        · rename_i hcap
          refine ⟨?_, ?_, ?_, ?_⟩
          · dsimp only
            apply List.ne_nil_of_length_pos
            rw [hplen]
            omega
          · dsimp only
            rw [hplen]
            omega
          · dsimp only
            rw [hplen]
            omega
          · dsimp only
            exact hchain
      · exact hinv p h

theorem storeInv_undo (s : CanvasState) (id : Str) (now : Int)
    (hinv : StoreInv s) : StoreInv (undo s id now) := by
  unfold undo
  cases hmg : mapGet s.canvases id with
  | none => exact hinv
  | some canvas =>
    dsimp only
    obtain ⟨hne, h0, hub, hch⟩ := hinv (id, canvas) (mapGet_mem _ _ _ hmg)
    dsimp only at hne h0 hub hch
    by_cases hle : canvas.currentIndex ≤ 0
    · rw [if_pos hle]
      exact hinv
    · rw [if_neg hle]
      intro p hp
      rcases mem_mapSet _ _ _ p hp with h | h
      · rw [h]
        exact ⟨hne, by dsimp only; omega, by dsimp only; omega, hch⟩
      · exact hinv p h

theorem storeInv_redo (s : CanvasState) (id : Str) (now : Int)
    (hinv : StoreInv s) : StoreInv (redo s id now) := by
  unfold redo
  cases hmg : mapGet s.canvases id with
  | none => exact hinv
  | some canvas =>
    dsimp only
    obtain ⟨hne, h0, hub, hch⟩ := hinv (id, canvas) (mapGet_mem _ _ _ hmg)
    dsimp only at hne h0 hub hch
    by_cases hge : canvas.currentIndex ≥ (canvas.contents.length : Int) - 1
    · rw [if_pos hge]
      exact hinv
    · rw [if_neg hge]
      intro p hp
      rcases mem_mapSet _ _ _ p hp with h | h
      · rw [h]
        exact ⟨hne, by dsimp only; omega, by dsimp only; omega, hch⟩
      · exact hinv p h

theorem storeInv_goToVersion (s : CanvasState) (id : Str) (index now : Int)
    (hinv : StoreInv s) : StoreInv (goToVersion s id index now) := by
  unfold goToVersion
  cases hmg : mapGet s.canvases id with
  | none => exact hinv
  | some canvas =>
    dsimp only
    obtain ⟨hne, h0, hub, hch⟩ := hinv (id, canvas) (mapGet_mem _ _ _ hmg)
    dsimp only at hne h0 hub hch
    by_cases hout : index < 0 ∨ index ≥ (canvas.contents.length : Int)
    · rw [if_pos hout]
      exact hinv
    · rw [if_neg hout]
      push_neg at hout
      intro p hp
      rcases mem_mapSet _ _ _ p hp with h | h
      · rw [h]
        exact ⟨hne, by dsimp only; omega, by dsimp only; omega, hch⟩
      · exact hinv p h

theorem storeInv_deleteCanvas (s : CanvasState) (id : Str)
    (hinv : StoreInv s) : StoreInv (deleteCanvas s id) := by
  unfold deleteCanvas
  intro p hp
  dsimp only at hp
  exact hinv p (mem_mapDelete _ _ _ hp)

theorem storeInv_acquireLock (s : CanvasState) (id : Str) (actor : LockActor)
    (hinv : StoreInv s) : StoreInv (acquireLock s id actor).2 := by
  unfold acquireLock
  cases hmg : mapGet s.canvases id with
  | none => exact hinv
  | some canvas =>
    dsimp only
    obtain ⟨hne, h0, hub, hch⟩ := hinv (id, canvas) (mapGet_mem _ _ _ hmg)
    dsimp only at hne h0 hub hch
    by_cases hden : canvas.isLocked ∧ canvas.lockedBy ≠ some actor
    · rw [if_pos hden]
      exact hinv
    · rw [if_neg hden]
      intro p hp
      rcases mem_mapSet _ _ _ p hp with h | h
      · rw [h]
        exact ⟨hne, h0, hub, hch⟩
      · exact hinv p h

theorem storeInv_releaseLock (s : CanvasState) (id : Str)
    (hinv : StoreInv s) : StoreInv (releaseLock s id) := by
  unfold releaseLock
  cases hmg : mapGet s.canvases id with
  | none => exact hinv
  | some canvas =>
    obtain ⟨hne, h0, hub, hch⟩ := hinv (id, canvas) (mapGet_mem _ _ _ hmg)
    dsimp only at hne h0 hub hch
    intro p hp
    rcases mem_mapSet _ _ _ p hp with h | h
    · rw [h]
      exact ⟨hne, h0, hub, hch⟩
    · exact hinv p h

/-- C1: every reachable store state satisfies the history invariant — each
canvas has a non-empty revision list, `0 ≤ currentIndex < contents.length`,
and strictly increasing version numbers along the list. -/
theorem C1_store_invariants (s : CanvasState) (h : Reach s) : StoreInv s := by
  induction h with
  | init => intro p hp; simp [initialState] at hp
  | create s type title initialContent language cid rid now _ ih =>
    exact storeInv_createCanvas s type title initialContent language cid rid now ih
  | update s id content rid now _ ih => exact storeInv_updateCanvas s id content rid now ih
  | undoStep s id now _ ih => exact storeInv_undo s id now ih
  | redoStep s id now _ ih => exact storeInv_redo s id now ih
  | goTo s id index now _ ih => exact storeInv_goToVersion s id index now ih
  | del s id _ ih => exact storeInv_deleteCanvas s id ih
  | acquire s id actor _ ih => exact storeInv_acquireLock s id actor ih
  | release s id _ ih => exact storeInv_releaseLock s id ih

/-- Witness for C1: the store reached by creating one canvas and updating
it beyond the debounce window satisfies the invariant. -/
theorem C1_store_invariants_witness :
    Reach (updateCanvas (createCanvas initialState CanvasType.text ("t".toList)
      ("hello".toList) none ("d".toList) ("r1".toList) 0).2 ("d".toList)
      ("world".toList) ("r2".toList) 2000) ∧
    StoreInv (updateCanvas (createCanvas initialState CanvasType.text ("t".toList)
      ("hello".toList) none ("d".toList) ("r1".toList) 0).2 ("d".toList)
      ("world".toList) ("r2".toList) 2000) := by
  have hreach : Reach (updateCanvas (createCanvas initialState CanvasType.text
      ("t".toList) ("hello".toList) none ("d".toList) ("r1".toList) 0).2 ("d".toList)
      ("world".toList) ("r2".toList) 2000) :=
    Reach.update _ _ _ _ _ (Reach.create _ _ _ _ _ _ _ _ Reach.init)
  exact ⟨hreach, C1_store_invariants _ hreach⟩
